import Mathlib

/-!
Verification development for the FCA container codec (python/fca_encode.py,
python/fca_decode.py, python/fca_tool.py).

Byte strings are modelled as `List Nat` (each element one byte).  File
contents, archive bytes and record payloads are all such lists.  The Python
functions are translated one-to-one; stateful file reads become explicit
positions in the remaining byte list, and raised exceptions become `Except`
errors.
-/

namespace Fca

/-- Modelled from the spec: the file `constants.py` is imported by the source
but is not part of the source tree.  The numeric values follow spec section 3
(FileType enumeration) and the comment in `fca_encode.py` line 121
("0=Unknown, 1=amiibo v2, 2=amiibo v3, 3=Skylander, 4=Disney Infinity,
5=Lego Dimensions"), which the test suite also asserts for values 1 and 2. -/
def FILE_TYPE_UNKNOWN : Nat := 0

/-- Modelled from the spec: see `FILE_TYPE_UNKNOWN`. -/
def FILE_TYPE_AMIIBO_V2 : Nat := 1

/-- Modelled from the spec: see `FILE_TYPE_UNKNOWN`. -/
def FILE_TYPE_AMIIBO_V3 : Nat := 2

/-- Modelled from the spec: see `FILE_TYPE_UNKNOWN`. -/
def FILE_TYPE_SKYLANDER : Nat := 3

/-- Modelled from the spec: see `FILE_TYPE_UNKNOWN`. -/
def FILE_TYPE_DISNEY_INFINITY : Nat := 4

/-- Modelled from the spec: see `FILE_TYPE_UNKNOWN`. -/
def FILE_TYPE_LEGO_DIMENSIONS : Nat := 5

/-- Python slice `content[a:b]` (for `0 ≤ a ≤ b`): clamps at the end of the
list exactly like Python slicing does. -/
def slice (content : List Nat) (a b : Nat) : List Nat :=
  (content.drop a).take (b - a)

/-- `detect_file_type` from `fca_encode.py` lines 23-63.  The Python function
is a sequence of guarded early returns, hence an if-chain here.  The indexed
accesses `content[0]`, `content[7]` are guarded by the length tests, so the
`getD` default is never taken. -/
def detect_file_type (content : List Nat) : Nat :=
  let size := content.length
  if size = 180 ∧ content.getD 0 0 = 0x04 ∧ content.getD 7 0 = 0x80 ∧
      slice content 8 144 = List.replicate 136 0 then
    FILE_TYPE_LEGO_DIMENSIONS
  else if size = 320 ∧ content.getD 0 0 = 0x04 ∧
      slice content 7 11 = [0x89, 0x44, 0x00, 0xC2] ∧
      slice content 54 57 = [0x17, 0x87, 0x8E] then
    FILE_TYPE_DISNEY_INFINITY
  else if (size = 1024 ∨ size = 2048) ∧ slice content 5 8 = [0x81, 0x01, 0x0F] ∧
      slice content 54 58 = [0x0F, 0x0F, 0x0F, 0x69] then
    FILE_TYPE_SKYLANDER
  else if (size = 532 ∨ size = 540 ∨ size = 572) ∧
      slice content 0x0C 0x10 = [0xF1, 0x10, 0xFF, 0xEE] then
    FILE_TYPE_AMIIBO_V2
  else if size = 2048 ∧ slice content 0x0C 0x10 = [0xF1, 0x10, 0xFF, 0xEE] then
    FILE_TYPE_AMIIBO_V3
  else
    FILE_TYPE_UNKNOWN

/-- Big-endian value of a byte string, as computed by `struct.unpack` on an
exact-length buffer. -/
def beVal (bs : List Nat) : Nat :=
  bs.foldl (fun acc b => acc * 256 + b) 0

/-- `struct.pack` of a 16-bit big-endian unsigned value (in range). -/
def u16be (n : Nat) : List Nat :=
  [n / 256 % 256, n % 256]

/-- `struct.pack` of a 32-bit big-endian unsigned value (in range). -/
def u32be (n : Nat) : List Nat :=
  [n / 2 ^ 24 % 256, n / 2 ^ 16 % 256, n / 2 ^ 8 % 256, n % 256]

/-- One record as written by the encoder loop (`fca_tool.py` lines 100-113,
identically `fca_encode.py` lines 104-129): `total_size` (u32 big-endian),
`header_size = 2` (u16 big-endian), header `[file_type, 0x00]`, content. -/
def encodeRecord (content : List Nat) : List Nat :=
  u32be (2 + 2 + content.length) ++ u16be 2 ++
    [detect_file_type content, 0x00] ++ content

/-- The record section of an encoded archive: concatenation of the per-file
records, in input order. -/
def encodeBody (contents : List (List Nat)) : List Nat :=
  (contents.map encodeRecord).flatten

/-- The bytes of the archive produced by the encoder for the given list of
file contents (already collected, deduplicated and sorted; sorting permutes
the list of contents and is immaterial to the properties proved here).
Returns `none` when some `total_size` does not fit an unsigned 32-bit
integer, in which case `struct.pack` in the source raises instead of
producing an archive. -/
def encodeArchive (contents : List (List Nat)) : Option (List Nat) :=
  if ∀ c ∈ contents, 2 + 2 + c.length < 2 ^ 32 then
    some ([0x46, 0x43, 0x41, 0x01] ++ encodeBody contents)
  else
    none

/-- Errors raised by `decode_fca` (`fca_decode.py`).  The source raises
`ValueError` for bad magic and truncated header/content, and `struct.error`
propagates from `struct.unpack` on a short version or `header_size` read;
all are fatal decode failures (the spec's FormatError).  `outOfFuel` is an
artifact of the fuelled loop below and is never reached from `decode_fca`
(see `parseLoop_ne_outOfFuel`). -/
inductive Err where
  | badMagic
  | shortVersion
  | shortHeaderSizeField
  | truncatedHeader
  | truncatedContent
  | outOfFuel
deriving DecidableEq

deriving instance DecidableEq for Except

/-- One decoded record, with the fields the decode loop extracts.
`file_type` is the type assigned by the loop: header byte 0 when
`version = 1 ∧ header_size = 2`, otherwise `FILE_TYPE_UNKNOWN`. -/
structure FcaRecord where
  total_size : Nat
  header_size : Nat
  header : List Nat
  file_type : Nat
  content : List Nat
deriving DecidableEq

/-- The `while True` loop of `decode_fca` (`fca_decode.py` lines 315-402),
operating on the bytes remaining after magic and version.  `fuel` bounds the
number of iterations; `decode_fca` supplies `length + 1`, which always
suffices because every iteration consumes at least 6 bytes (see
`parseLoop_ne_outOfFuel`).  Each iteration: a read of fewer than 4 bytes at
the `total_size` position breaks the loop (clean EOF); `struct.unpack` of a
short `header_size` read raises; a short header read raises; then
`embedded_size = total_size - 2 - header_size` is computed as a signed
integer and passed to `f.read`, which for a negative argument reads all
remaining bytes (Python semantics of `read` with a negative size), so the
`len(content) < embedded_size` check can only fire for a nonnegative
`embedded_size`. -/
def parseLoop (version : Nat) : Nat → List Nat → Except Err (List FcaRecord)
  | 0, _ => .error .outOfFuel
  | fuel + 1, s =>
    if s.length < 4 then .ok []
    else
      let total_size := beVal (s.take 4)
      let s1 := s.drop 4
      if s1.length < 2 then .error .shortHeaderSizeField
      else
        let header_size := beVal (s1.take 2)
        let s2 := s1.drop 2
        let header := s2.take header_size
        if header.length < header_size then .error .truncatedHeader
        else
          let file_type :=
            if version = 1 ∧ header_size = 2 then header.getD 0 0
            else FILE_TYPE_UNKNOWN
          let s3 := s2.drop header_size
          let embedded : Int := (total_size : Int) - 2 - (header_size : Int)
          let content := if embedded < 0 then s3 else s3.take embedded.toNat
          let s4 := if embedded < 0 then [] else s3.drop embedded.toNat
          if (content.length : Int) < embedded then .error .truncatedContent
          else
            match parseLoop version fuel s4 with
            | .ok recs =>
                .ok (⟨total_size, header_size, header, file_type, content⟩ :: recs)
            | .error e => .error e

/-- `decode_fca` (`fca_decode.py` lines 282-410) as a pure function from
archive bytes to the list of extracted records: `f.read(3)` must equal
`b'FCA'`, then one version byte is required, then the record loop runs on
the rest. -/
def decode_fca (a : List Nat) : Except Err (List FcaRecord) :=
  if a.take 3 ≠ [0x46, 0x43, 0x41] then .error .badMagic
  else
    match a.drop 3 with
    | [] => .error .shortVersion
    | v :: rest => parseLoop v (rest.length + 1) rest

/-- One lowercase hexadecimal digit, as produced by `bytes.hex()`. -/
def hexDigit (n : Nat) : Char :=
  if n < 10 then Char.ofNat (48 + n) else Char.ofNat (87 + n)

/-- `bytes.hex()`: two lowercase hex digits per byte. -/
def bytesHex (bs : List Nat) : String :=
  String.mk (bs.foldr (fun b acc => hexDigit (b / 16 % 16) :: hexDigit (b % 16) :: acc) [])

/-- `extract_amiibo_id` from `fca_decode.py` lines 109-137: requires at least
0x5C content bytes, slices head `[0x54:0x58]` and tail `[0x58:0x5C]`, and
returns the pair of hex strings only when the tail is not all zeros.  The
source returns the sentinel `(None, None)` in the absent cases; the caller
only distinguishes present from absent, modelled as `Option`. -/
def extract_amiibo_id (content : List Nat) : Option (String × String) :=
  if content.length < 0x5C then none
  else
    let head_bytes := slice content 0x54 0x58
    let tail_bytes := slice content 0x58 0x5C
    if tail_bytes.any (fun b => b ≠ 0) then
      some (bytesHex head_bytes, bytesHex tail_bytes)
    else none

/-- One entry of the amiibo database JSON (`amiibo` array element).  The
source reads the fields with `.get(key, "Unknown")`; entries here carry the
already-defaulted field values.  The JSON key `type` is a Lean keyword,
rendered `amiiboType`. -/
structure AmiiboEntry where
  head : String
  tail : String
  amiiboSeries : String
  amiiboType : String
  name : String
deriving DecidableEq

/-- `lookup_amiibo_data` from `fca_decode.py` lines 140-180: guard on falsy
(empty) ids, then first match by head+tail, then first match by tail alone.
`db = none` models an unavailable database (`load_amiibo_database` returned
`None`); the "not_found" lookup-method string is dropped since the caller
only tests the three name fields. -/
def lookup_amiibo_data (db : Option (List AmiiboEntry)) (head_id tail_id : String) :
    Option (String × String × String) :=
  if head_id = "" ∨ tail_id = "" then none
  else
    match db with
    | none => none
    | some amiibo_list =>
      match amiibo_list.find? (fun a => a.head == head_id && a.tail == tail_id) with
      | some a => some (a.amiiboSeries, a.amiiboType, a.name)
      | none =>
        match amiibo_list.find? (fun a => a.tail == tail_id) with
        | some a => some (a.amiiboSeries, a.amiiboType, a.name)
        | none => none

/-- The characters replaced by `sanitize_filename`. -/
def invalidChars : List Char :=
  ['<', '>', ':', '"', '|', '?', '*', '/', '\\']

/-- `sanitize_filename` from `fca_decode.py` lines 183-205: replace invalid
characters with underscores, strip leading/trailing spaces and dots, then
truncate to 200 characters. -/
def sanitize_filename (filename : String) : String :=
  let replaced := filename.toList.map fun c => if c ∈ invalidChars then '_' else c
  let isStrip := fun c => c = ' ' ∨ c = '.'
  let stripped := ((replaced.dropWhile isStrip).reverse.dropWhile isStrip).reverse
  String.mk (stripped.take 200)

/-- How a decoded record is named (`decode_fca` lines 353-385).  `figure`
carries the sanitized `series/type` subdirectory and the filename built from
the sanitized amiibo name (with `.bin` appended unless pro naming);
`md5hash` means the filename is the lowercase hex MD5 digest of the record's
content, directly under the output root (the digest itself is computed by
the external `hashlib` library). -/
inductive OutName where
  | figure (subdir : String × String) (filename : String)
  | md5hash
deriving DecidableEq

/-- The output-naming logic of the decode loop (`fca_decode.py` lines
353-385): only FigureV2/FigureV3 records attempt identity resolution, and
any absent key, failed lookup, or falsy (empty) name field falls back to MD5
naming. -/
def outputName (db : Option (List AmiiboEntry)) (use_pro_names : Bool)
    (file_type : Nat) (content : List Nat) : OutName :=
  if file_type = FILE_TYPE_AMIIBO_V2 ∨ file_type = FILE_TYPE_AMIIBO_V3 then
    match extract_amiibo_id content with
    | some (head_id, tail_id) =>
      match lookup_amiibo_data db head_id tail_id with
      | some (series_name, amiibo_type, amiibo_name) =>
        if series_name ≠ "" ∧ amiibo_type ≠ "" ∧ amiibo_name ≠ "" then
          OutName.figure (sanitize_filename series_name, sanitize_filename amiibo_type)
            (if use_pro_names then sanitize_filename amiibo_name
             else sanitize_filename amiibo_name ++ ".bin")
        else OutName.md5hash
      | none => OutName.md5hash
    | none => OutName.md5hash
  else OutName.md5hash

/-- The candidate filename tried by `make_unique_filename` for a given
counter: `f"{stem} ({counter}){suffix}"`. -/
def candName (stem suffix : String) (counter : Nat) : String :=
  stem ++ " (" ++ toString counter ++ ")" ++ suffix

/-- `make_unique_filename` from `fca_decode.py` lines 254-279.  The
filesystem is abstracted as the existence predicate `ex` on filenames within
the parent directory (pathlib splits `name = stem ++ suffix`).  The source's
`while True` loop tries counters 1, 2, 3, … and returns the first free
candidate; that loop terminates exactly when some candidate is free, which
the certificate `hfree` supplies, and its result is the candidate at the
least free counter, written here with `Nat.find`. -/
def make_unique_filename (ex : String → Bool) (stem suffix : String)
    (hfree : ∃ n, ex (candName stem suffix (n + 1)) = false) : String :=
  if ex (stem ++ suffix) = false then stem ++ suffix
  else candName stem suffix (Nat.find hfree + 1)

/-- Errors raised by `collect_input_files` (`fca_tool.py` lines 47-83); all
are Python `ValueError`s with the quoted messages. -/
inductive InputErr where
  | missingFile (p : String)
  | missingDir (p : String)
  | emptyInput
deriving DecidableEq

/-- The filesystem as seen by input collection: file and directory existence
plus the list of (non-hidden) file paths an `os.walk` over a directory
yields after the source's dotfile filtering. -/
structure FS where
  isFile : String → Bool
  isDir : String → Bool
  walk : String → List String

/-- Deduplicating append used throughout `collect_input_files`: paths are
added in encounter order, skipping paths already seen.  (`Path.resolve` is
modelled as the identity on the abstract path strings.) -/
def addNew (sa : List String × List String) (p : String) : List String × List String :=
  if p ∈ sa.1 then sa else (p :: sa.1, sa.2 ++ [p])

/-- The explicit-files pass of `collect_input_files` (`fca_tool.py` lines
55-62): each named input must be an existing file. -/
def collectFiles (fs : FS) :
    List String → List String × List String → Except InputErr (List String × List String)
  | [], sa => .ok sa
  | p :: rest, sa =>
    if fs.isFile p = false then .error (.missingFile p)
    else collectFiles fs rest (addNew sa p)

/-- The directories pass of `collect_input_files` (`fca_tool.py` lines
64-78): each named input must be an existing directory, whose walked files
are added with deduplication. -/
def collectDirs (fs : FS) :
    List String → List String × List String → Except InputErr (List String × List String)
  | [], sa => .ok sa
  | d :: rest, sa =>
    if fs.isDir d = false then .error (.missingDir d)
    else collectDirs fs rest ((fs.walk d).foldl addNew sa)

/-- `collect_input_files` from `fca_tool.py` lines 47-83: explicit files
first, then recursive directories, then the emptiness check. -/
def collect_input_files (fs : FS) (input_files input_dirs : List String) :
    Except InputErr (List String) :=
  match collectFiles fs input_files ([], []) with
  | .error e => .error e
  | .ok sa =>
    match collectDirs fs input_dirs sa with
    | .error e => .error e
    | .ok sa2 => if sa2.2 = [] then .error .emptyInput else .ok sa2.2

/-- `encode_fca_from_sources` from `fca_tool.py` lines 86-116, over the
abstract filesystem.  The returned Boolean records whether execution reached
line 94 (`output_path.parent.mkdir`) and line 96 (`open(output_path, "wb")`),
i.e. whether the output path was created or modified at all; collection
errors propagate before either happens.  On success the archive bytes are
built from the collected paths sorted for determinism (line 91), reading
each file's content. -/
def encode_fca_from_sources (fs : FS) (readContent : String → List Nat)
    (input_files input_dirs : List String) :
    Except InputErr (Option (List Nat)) × Bool :=
  match collect_input_files fs input_files input_dirs with
  | .error e => (.error e, false)
  | .ok resolved =>
    (.ok (encodeArchive ((resolved.mergeSort (· ≤ ·)).map readContent)), true)

/-- The version-independent fields of a decoded record: everything the
version-1 record layout determines (`total_size`, `header_size`, raw header
bytes, content), excluding the type interpretation of the header. -/
def recFrame (r : FcaRecord) : Nat × Nat × List Nat × List Nat :=
  (r.total_size, r.header_size, r.header, r.content)

/-- First 58 bytes of `bufBothSigs`: zeros except the Skylander signature
(bytes 5-7 = `81 01 0F`, bytes 54-57 = `0F 0F 0F 69`) and the NTAG215
capability container (bytes 0x0C-0x0F = `F1 10 FF EE`). -/
def bufBothSigsHead : List Nat :=
  [0, 0, 0, 0, 0,
   0x81, 0x01, 0x0F,
   0, 0, 0, 0,
   0xF1, 0x10, 0xFF, 0xEE,
   0, 0, 0, 0, 0, 0, 0, 0, 0, 0, 0, 0, 0, 0, 0, 0, 0, 0, 0, 0, 0, 0,
   0, 0, 0, 0, 0, 0, 0, 0, 0, 0, 0, 0, 0, 0, 0, 0,
   0x0F, 0x0F, 0x0F, 0x69]

/-- A 2048-byte buffer carrying both the Skylander signature and the NTAG215
capability container. -/
def bufBothSigs : List Nat :=
  bufBothSigsHead ++ List.replicate 1990 0

/-- First 16 bytes of `bufCCOnly`: zeros except the NTAG215 capability
container (bytes 0x0C-0x0F = `F1 10 FF EE`). -/
def bufCCOnlyHead : List Nat :=
  [0, 0, 0, 0, 0, 0, 0, 0, 0, 0, 0, 0, 0xF1, 0x10, 0xFF, 0xEE]

/-- A 2048-byte buffer carrying only the NTAG215 capability container, not
the Skylander signature. -/
def bufCCOnly : List Nat :=
  bufCCOnlyHead ++ List.replicate 2032 0

/-- Archive bytes whose single record has `total_size = 0` and
`header_size = 0`, making `total_size - 2 - header_size = -2` negative; one
stray content byte `0xAA` follows. -/
def negSizeArchive : List Nat :=
  [0x46, 0x43, 0x41, 0x01, 0, 0, 0, 0, 0, 0, 0xAA]

/-- Witness filename stem. -/
def stemW : String := "a"

/-- Witness filename suffix. -/
def suffixW : String := ".txt"

/-- Witness filesystem: exactly the file `a.txt` exists. -/
def exW : String → Bool := fun s => s == stemW ++ suffixW

/-- Witness filesystem for input collection: nothing exists. -/
def emptyFS : FS := ⟨fun _ => false, fun _ => false, fun _ => []⟩

/-- Witness input path name. -/
def pathW : String := "x"

/-- The record the decoder recovers from one encoder-written record with the
given content: `total_size = 2 + header_size + len(content)`,
`header_size = 2`, header `[file_type, 0x00]`. -/
def encodedRec (c : List Nat) : FcaRecord :=
  ⟨2 + 2 + c.length, 2, [detect_file_type c, 0x00], detect_file_type c, c⟩

/-- Witness input set for the round-trip claim: a zero-length file and a
4-byte binary file. -/
def filesW : List (List Nat) :=
  [[], [0xDE, 0xAD, 0xBE, 0xEF]]

/-- Witness input set for the framing-invariant claim. -/
def filesW2 : List (List Nat) :=
  [[104, 105]]

/-- Witness record decoded from a version-7 archive: the header bytes
`[5, 0]` are left uninterpreted. -/
def recW : FcaRecord :=
  ⟨4, 2, [5, 0], 0, []⟩

/-- C7: every input whose first 3 bytes are not exactly the ASCII characters
`F`, `C`, `A` (including inputs shorter than 3 bytes) is rejected with the
bad-magic FormatError before any record is extracted; the decode call
returns this error and writes no output files. -/
theorem bad_magic_rejected (a : List Nat) (h : a.take 3 ≠ [0x46, 0x43, 0x41]) :
    decode_fca a = Except.error Err.badMagic := by
  unfold decode_fca
  rw [if_pos h]

/-- Witness for `bad_magic_rejected`: a wrong 3-byte magic and a 2-byte
input are both rejected. -/
theorem bad_magic_rejected_witness :
    decode_fca [0x58, 0x58, 0x58, 0x01] = Except.error Err.badMagic ∧
      decode_fca [0x46, 0x43] = Except.error Err.badMagic :=
  ⟨bad_magic_rejected [0x58, 0x58, 0x58, 0x01] (by decide),
   bad_magic_rejected [0x46, 0x43] (by decide)⟩

/-- C10: when input collection fails (missing input file, missing input
directory, or empty collected set), `encode_fca_from_sources` propagates
that error with the output untouched: the `false` component records that
execution never reached the parent-directory creation or the opening of the
output file. -/
theorem encode_validates_before_output (fs : FS) (readContent : String → List Nat)
    (input_files input_dirs : List String) (e : InputErr)
    (h : collect_input_files fs input_files input_dirs = Except.error e) :
    encode_fca_from_sources fs readContent input_files input_dirs =
      (Except.error e, false) := by
  unfold encode_fca_from_sources
  rw [h]

/-- Witness for `encode_validates_before_output`: a single nonexistent input
file fails collection and leaves the output untouched. -/
theorem encode_validates_before_output_witness :
    encode_fca_from_sources emptyFS (fun _ => []) [pathW] [] =
      (Except.error (InputErr.missingFile pathW), false) :=
  encode_validates_before_output emptyFS (fun _ => []) [pathW] []
    (InputErr.missingFile pathW) (by decide)

/-- C9: a resolved output path that does not exist is returned unchanged; an
existing one gets the parenthesized numeric disambiguator, with the counter
starting at 1 and incremented by one each try, and the first free candidate
is returned (every smaller counter's candidate exists). -/
theorem unique_filename_counter (ex : String → Bool) (stem suffix : String)
    (hfree : ∃ n, ex (candName stem suffix (n + 1)) = false) :
    (ex (stem ++ suffix) = false →
      make_unique_filename ex stem suffix hfree = stem ++ suffix) ∧
    (ex (stem ++ suffix) = true →
      ∃ k, 1 ≤ k ∧ make_unique_filename ex stem suffix hfree = candName stem suffix k ∧
        ex (candName stem suffix k) = false ∧
        ∀ j, 1 ≤ j → j < k → ex (candName stem suffix j) = true) := by
  constructor
  · intro h
    unfold make_unique_filename
    rw [if_pos h]
  · intro h
    unfold make_unique_filename
    rw [if_neg (by simp [h])]
    refine ⟨Nat.find hfree + 1, by omega, rfl, Nat.find_spec hfree, ?_⟩
    intro j hj1 hj2
    have hm : j - 1 < Nat.find hfree := by omega
    have hmin := Nat.find_min hfree hm
    have hj : j - 1 + 1 = j := by omega
    rw [hj] at hmin
    cases hx : ex (candName stem suffix j)
    · exact absurd hx hmin
    · rfl

/-- Witness for `unique_filename_counter`: with only `a.txt` on disk, the
resolver returns the first disambiguated candidate. -/
theorem unique_filename_counter_witness :
    ∃ k, 1 ≤ k ∧
      make_unique_filename exW stemW suffixW ⟨0, rfl⟩ = candName stemW suffixW k ∧
      exW (candName stemW suffixW k) = false ∧
      ∀ j, 1 ≤ j → j < k → exW (candName stemW suffixW j) = true :=
  (unique_filename_counter exW stemW suffixW ⟨0, rfl⟩).2 (by decide)

/-- C8: identity-key extraction returns absent exactly when the content is
shorter than 0x5C bytes or the tail slice `bytes[0x58:0x5C]` is all zero
(regardless of the head bytes); a FigureV2/FigureV3-classified record with
such content is consequently named by the MD5 hash of its content, with no
identity lookup involved. -/
theorem identity_extraction_absent (content : List Nat) (file_type : Nat)
    (db : Option (List AmiiboEntry)) (pro : Bool)
    (hft : file_type = FILE_TYPE_AMIIBO_V2 ∨ file_type = FILE_TYPE_AMIIBO_V3) :
    (extract_amiibo_id content = none ↔
      content.length < 0x5C ∨ ∀ b ∈ slice content 0x58 0x5C, b = 0) ∧
    (extract_amiibo_id content = none →
      outputName db pro file_type content = OutName.md5hash) := by
  constructor
  · by_cases hl : content.length < 0x5C
    · simp [extract_amiibo_id, hl]
    · have hiff : extract_amiibo_id content = none ↔
          ((slice content 0x58 0x5C).any fun b => b ≠ 0) = false := by
        simp [extract_amiibo_id, hl]
      rw [hiff]
      simp [List.any_eq_false, hl]
  · intro hnone
    unfold outputName
    rw [if_pos hft, hnone]

/-- Witness for `identity_extraction_absent`: empty content (shorter than
0x5C bytes) has no identity key, and a FigureV2 record with it is named by
MD5 hash. -/
theorem identity_extraction_absent_witness :
    outputName none false FILE_TYPE_AMIIBO_V2 [] = OutName.md5hash :=
  (identity_extraction_absent [] FILE_TYPE_AMIIBO_V2 none false (Or.inl rfl)).2 (by decide)

/-- C4: the classifier evaluates the Skylander signature before the FigureV3
capability-container signature on 2048-byte content: content satisfying the
Skylander signature (in particular, content satisfying both signatures)
classifies as `FILE_TYPE_SKYLANDER`, and content failing the Skylander
signature but carrying the capability container classifies as
`FILE_TYPE_AMIIBO_V3`. -/
theorem classifier_skylander_before_figureV3 (content : List Nat)
    (hlen : content.length = 2048) :
    (slice content 5 8 = [0x81, 0x01, 0x0F] ∧
        slice content 54 58 = [0x0F, 0x0F, 0x0F, 0x69] →
      detect_file_type content = FILE_TYPE_SKYLANDER) ∧
    (¬(slice content 5 8 = [0x81, 0x01, 0x0F] ∧
        slice content 54 58 = [0x0F, 0x0F, 0x0F, 0x69]) →
      slice content 0x0C 0x10 = [0xF1, 0x10, 0xFF, 0xEE] →
      detect_file_type content = FILE_TYPE_AMIIBO_V3) := by
  constructor
  · rintro ⟨h1, h2⟩
    simp [detect_file_type, hlen, h1, h2]
  · intro hn hcc
    simp only [detect_file_type, hlen]
    rw [if_neg (by simp), if_neg (by simp),
      if_neg (fun hc => hn ⟨hc.2.1, hc.2.2⟩), if_neg (by simp), if_pos (by simp [hcc])]

/-- Slicing a concatenation that ends inside the left part only sees the
left part. -/
theorem slice_append_left (l₁ l₂ : List Nat) (a b : Nat) (h : b ≤ l₁.length) :
    slice (l₁ ++ l₂) a b = slice l₁ a b := by
  unfold slice
  by_cases ha : a ≤ l₁.length
  · rw [List.drop_append_of_le_length ha,
      List.take_append_of_le_length (by rw [List.length_drop]; omega)]
  · have hb : b - a = 0 := by omega
    simp [hb]

/-- Witness for `classifier_skylander_before_figureV3`: a 2048-byte buffer
with both signatures classifies as Skylander, and one with only the
capability container classifies as amiibo v3. -/
theorem classifier_skylander_before_figureV3_witness :
    detect_file_type bufBothSigs = FILE_TYPE_SKYLANDER ∧
      detect_file_type bufCCOnly = FILE_TYPE_AMIIBO_V3 := by
  have hh1 : bufBothSigsHead.length = 58 := by decide
  have hh2 : bufCCOnlyHead.length = 16 := by decide
  have hlen1 : bufBothSigs.length = 2048 := by
    unfold bufBothSigs
    rw [List.length_append, List.length_replicate, hh1]
  have hlen2 : bufCCOnly.length = 2048 := by
    unfold bufCCOnly
    rw [List.length_append, List.length_replicate, hh2]
  have hs1 : slice bufBothSigs 5 8 = [0x81, 0x01, 0x0F] := by
    unfold bufBothSigs
    rw [slice_append_left bufBothSigsHead (List.replicate 1990 0) 5 8 (by decide)]
    decide
  have hs2 : slice bufBothSigs 54 58 = [0x0F, 0x0F, 0x0F, 0x69] := by
    unfold bufBothSigs
    rw [slice_append_left bufBothSigsHead (List.replicate 1990 0) 54 58 (by decide)]
    decide
  have hc1 : slice bufCCOnly 5 8 = [0, 0, 0] := by
    unfold bufCCOnly
    rw [slice_append_left bufCCOnlyHead (List.replicate 2032 0) 5 8 (by decide)]
    decide
  have hc2 : slice bufCCOnly 0x0C 0x10 = [0xF1, 0x10, 0xFF, 0xEE] := by
    unfold bufCCOnly
    rw [slice_append_left bufCCOnlyHead (List.replicate 2032 0) 0x0C 0x10 (by decide)]
    decide
  refine ⟨(classifier_skylander_before_figureV3 bufBothSigs hlen1).1 ⟨hs1, hs2⟩,
    (classifier_skylander_before_figureV3 bufCCOnly hlen2).2 ?_ hc2⟩
  intro hc
  rw [hc1] at hc
  exact absurd hc.1 (by decide)

/-- Packing then big-endian-decoding a 32-bit value is the identity. -/
theorem beVal_u32be (n : Nat) (h : n < 2 ^ 32) : beVal (u32be n) = n := by
  have e24 : (2 : Nat) ^ 24 = 16777216 := by norm_num
  have e16 : (2 : Nat) ^ 16 = 65536 := by norm_num
  have e8 : (2 : Nat) ^ 8 = 256 := by norm_num
  have e32 : (2 : Nat) ^ 32 = 4294967296 := by norm_num
  rw [e32] at h
  simp only [beVal, u32be, List.foldl, e24, e16, e8]
  omega

/-- The decode loop inverts the encoder's record section: with any
sufficient fuel it recovers exactly one record per input file, with the
framing fields the encoder wrote. -/
theorem parseLoop_encodeBody (files : List (List Nat)) (fuel : Nat)
    (hsz : ∀ c ∈ files, 2 + 2 + c.length < 2 ^ 32)
    (hfuel : files.length < fuel) :
    parseLoop 1 fuel (encodeBody files) = .ok (files.map encodedRec) := by
  induction files generalizing fuel with
  | nil =>
    obtain ⟨g, rfl⟩ : ∃ g, fuel = g + 1 := ⟨fuel - 1, by omega⟩
    simp [encodeBody, parseLoop]
  | cons c rest ih =>
    obtain ⟨g, rfl⟩ : ∃ g, fuel = g + 1 := ⟨fuel - 1, by omega⟩
    have hc : 2 + 2 + c.length < 2 ^ 32 := hsz c (List.mem_cons_self c rest)
    have hflen : rest.length < g := by
      simp only [List.length_cons] at hfuel
      omega
    have hrec := ih g (fun x hx => hsz x (List.mem_cons_of_mem c hx)) hflen
    have hbody : encodeBody (c :: rest) =
        u32be (2 + 2 + c.length) ++
          (u16be 2 ++ ([detect_file_type c, 0x00] ++ (c ++ encodeBody rest))) := by
      simp [encodeBody, encodeRecord, List.append_assoc]
    have h4len : (u32be (2 + 2 + c.length)).length = 4 := by simp [u32be]
    have h2len : (u16be 2).length = 2 := by simp [u16be]
    have hhlen : ([detect_file_type c, 0x00] : List Nat).length = 2 := by simp
    have hbe2 : beVal (u16be 2) = 2 := by decide
    rw [hbody]
    simp only [parseLoop]
    rw [List.take_left' h4len, List.drop_left' h4len]
    rw [if_neg (by simp [u32be, u16be])]
    rw [List.take_left' h2len, List.drop_left' h2len]
    rw [if_neg (by simp [u16be])]
    rw [hbe2, beVal_u32be _ hc]
    rw [List.take_left' hhlen, List.drop_left' hhlen]
    rw [if_neg (by simp)]
    rw [if_pos (⟨trivial, rfl⟩ : True ∧ (2 : Nat) = 2)]
    have hembn : ¬(((2 + 2 + c.length : Nat) : Int) - 2 - ((2 : Nat) : Int) < 0) := by
      push_cast
      omega
    rw [if_neg hembn, if_neg hembn]
    have hton : (((2 + 2 + c.length : Nat) : Int) - 2 - ((2 : Nat) : Int)).toNat = c.length := by
      omega
    rw [hton]
    rw [List.take_left, List.drop_left]
    rw [if_neg (by push_cast; omega)]
    rw [hrec]
    simp [encodedRec]

/-- There are at least as many body bytes as records (each record is at
least 8 bytes long), so stream length is a fuel bound for the loop. -/
theorem encodeBody_le_length (files : List (List Nat)) :
    files.length ≤ (encodeBody files).length := by
  induction files with
  | nil => simp [encodeBody]
  | cons c rest ih =>
    have h1 : 0 < (encodeRecord c).length := by simp [encodeRecord, u32be, u16be]
    unfold encodeBody at ih ⊢
    simp only [List.map_cons, List.flatten_cons, List.length_append, List.length_cons]
    omega

/-- Encoding a list of contents succeeds (under the u32 size bound) and
decoding the resulting archive recovers exactly the per-file records. -/
theorem decode_encodeArchive (files : List (List Nat))
    (h : ∀ c ∈ files, 2 + 2 + c.length < 2 ^ 32) :
    encodeArchive files = some ([0x46, 0x43, 0x41, 0x01] ++ encodeBody files) ∧
      decode_fca ([0x46, 0x43, 0x41, 0x01] ++ encodeBody files) =
        .ok (files.map encodedRec) := by
  constructor
  · unfold encodeArchive
    rw [if_pos h]
  · unfold decode_fca
    rw [if_neg (by simp)]
    have hdrop : ([0x46, 0x43, 0x41, 0x01] ++ encodeBody files).drop 3 =
        1 :: encodeBody files := by simp
    rw [hdrop]
    exact parseLoop_encodeBody files _ h
      (by have := encodeBody_le_length files; omega)

/-- The loop never runs out of fuel when the fuel exceeds the stream length,
because every iteration consumes at least 6 bytes; hence the fuelled model
with `decode_fca`'s choice of fuel is faithful to the source's unbounded
`while` loop. -/
theorem parseLoop_ne_outOfFuel (v : Nat) :
    ∀ (fuel : Nat) (s : List Nat), s.length < fuel →
      parseLoop v fuel s ≠ .error .outOfFuel := by
  intro fuel
  induction fuel with
  | zero => exact fun s h => absurd h (by omega)
  | succ g ih =>
    intro s h
    simp only [parseLoop]
    split
    · simp
    · rename_i h4
      split
      · simp
      · rename_i h2
        split
        · simp
        · have hg : 6 ≤ s.length := by
            simp only [List.length_drop] at h2
            omega
          by_cases hneg : (beVal (s.take 4) : Int) - 2 -
              (beVal ((s.drop 4).take 2) : Int) < 0
          · rw [if_pos hneg, if_pos hneg]
            rw [if_neg (by omega)]
            have hne := ih [] (by simp only [List.length_nil]; omega)
            cases hm : parseLoop v g [] with
            | ok recs => simp
            | error e =>
              rw [hm] at hne
              exact hne
          · rw [if_neg hneg, if_neg hneg]
            split
            · simp
            · have hne := ih ((((s.drop 4).drop 2).drop
                  (beVal ((s.drop 4).take 2))).drop
                  ((beVal (s.take 4) : Int) - 2 -
                    (beVal ((s.drop 4).take 2) : Int)).toNat)
                (by simp only [List.length_drop]; omega)
              cases hm : parseLoop v g ((((s.drop 4).drop 2).drop
                  (beVal ((s.drop 4).take 2))).drop
                  ((beVal (s.take 4) : Int) - 2 -
                    (beVal ((s.drop 4).take 2) : Int)).toNat) with
              | ok recs => simp
              | error e =>
                rw [hm] at hne
                exact hne

/-- C1: encoding any finite list of file contents (each small enough for
its `total_size` to fit the unsigned 32-bit field) and decoding the result
recovers, record by record, exactly the input contents; in particular the
multiset of decoded contents, compared by any digest function such as MD5,
equals the multiset of input contents.  Each decoded record is written to
its own output file (distinct paths are guaranteed by the collision policy)
with the record's content as the file's bytes. -/
theorem encode_decode_roundtrip (files : List (List Nat))
    (h : ∀ c ∈ files, c.length + 4 < 2 ^ 32) :
    ∃ a recs, encodeArchive files = some a ∧ decode_fca a = .ok recs ∧
      recs.map FcaRecord.content = files ∧
      ∀ md5 : List Nat → List Nat,
        Multiset.map md5 (↑(recs.map FcaRecord.content) : Multiset (List Nat)) =
          Multiset.map md5 (↑files : Multiset (List Nat)) := by
  have h' : ∀ c ∈ files, 2 + 2 + c.length < 2 ^ 32 := by
    intro c hc
    have := h c hc
    omega
  obtain ⟨henc, hdec⟩ := decode_encodeArchive files h'
  have hcont : (files.map encodedRec).map FcaRecord.content = files := by
    have hcomp : FcaRecord.content ∘ encodedRec = id := funext fun c => rfl
    rw [List.map_map, hcomp, List.map_id]
  exact ⟨_, _, henc, hdec, hcont, fun md5 => by rw [hcont]⟩

/-- Witness for `encode_decode_roundtrip`: a zero-length file and a 4-byte
file round-trip. -/
theorem encode_decode_roundtrip_witness :
    ∃ a recs, encodeArchive filesW = some a ∧ decode_fca a = .ok recs ∧
      recs.map FcaRecord.content = filesW ∧
      ∀ md5 : List Nat → List Nat,
        Multiset.map md5 (↑(recs.map FcaRecord.content) : Multiset (List Nat)) =
          Multiset.map md5 (↑filesW : Multiset (List Nat)) :=
  encode_decode_roundtrip filesW (by decide)

/-- C3: the encoder writes every record as `total_size` (u32 big-endian),
then `header_size = 2` (u16 big-endian), then the header `[file_type, 0x00]`,
then the content, with `total_size = 2 + header_size + len(content)`; every
record decoded back from the encoder's output satisfies the framing
invariant. -/
theorem encoder_framing_invariant (files : List (List Nat))
    (h : ∀ c ∈ files, c.length + 4 < 2 ^ 32) :
    ∃ a recs, encodeArchive files = some a ∧ decode_fca a = .ok recs ∧
      (∀ r ∈ recs, r.total_size = 2 + r.header_size + r.content.length ∧
        r.header_size = 2) ∧
      a = [0x46, 0x43, 0x41, 0x01] ++
        (files.map fun c =>
          u32be (2 + 2 + c.length) ++ u16be 2 ++
            [detect_file_type c, 0x00] ++ c).flatten := by
  have h' : ∀ c ∈ files, 2 + 2 + c.length < 2 ^ 32 := by
    intro c hc
    have := h c hc
    omega
  obtain ⟨henc, hdec⟩ := decode_encodeArchive files h'
  refine ⟨_, _, henc, hdec, ?_, rfl⟩
  intro r hr
  obtain ⟨c, _, rfl⟩ := List.mem_map.mp hr
  exact ⟨rfl, rfl⟩

/-- Witness for `encoder_framing_invariant`: a 2-byte file. -/
theorem encoder_framing_invariant_witness :
    ∃ a recs, encodeArchive filesW2 = some a ∧ decode_fca a = .ok recs ∧
      (∀ r ∈ recs, r.total_size = 2 + r.header_size + r.content.length ∧
        r.header_size = 2) ∧
      a = [0x46, 0x43, 0x41, 0x01] ++
        (filesW2.map fun c =>
          u32be (2 + 2 + c.length) ++ u16be 2 ++
            [detect_file_type c, 0x00] ++ c).flatten :=
  encoder_framing_invariant filesW2 (by decide)

/-- The branch structure and the version-independent record fields of the
loop do not depend on the version byte. -/
theorem parseLoop_version_frame (v1 v2 fuel : Nat) (s : List Nat) :
    (parseLoop v1 fuel s).map (List.map recFrame) =
      (parseLoop v2 fuel s).map (List.map recFrame) := by
  induction fuel generalizing s with
  | zero => rfl
  | succ g ih =>
    simp only [parseLoop]
    split
    · rfl
    · split
      · rfl
      · split
        · rfl
        · by_cases hneg : (beVal (s.take 4) : Int) - 2 -
              (beVal ((s.drop 4).take 2) : Int) < 0
          · rw [if_pos hneg, if_pos hneg]
            have hcl2 : ¬(((((s.drop 4).drop 2).drop
                  (beVal ((s.drop 4).take 2))).length : Int) <
                (beVal (s.take 4) : Int) - 2 - (beVal ((s.drop 4).take 2) : Int)) := by
              omega
            rw [if_neg hcl2, if_neg hcl2]
            have h := ih []
            cases h1 : parseLoop v1 g [] with
            | ok recs1 =>
              cases h2 : parseLoop v2 g [] with
              | ok recs2 =>
                rw [h1, h2] at h
                simp only [Except.map, Except.ok.injEq] at h
                simp only [Except.map, Except.ok.injEq, List.map_cons, List.cons.injEq]
                exact ⟨rfl, h⟩
              | error e2 =>
                rw [h1, h2] at h
                simp [Except.map] at h
            | error e1 =>
              cases h2 : parseLoop v2 g [] with
              | ok recs2 =>
                rw [h1, h2] at h
                simp [Except.map] at h
              | error e2 =>
                rw [h1, h2] at h
                simp only [Except.map, Except.error.injEq] at h
                subst h
                rfl
          · rw [if_neg hneg, if_neg hneg]
            by_cases hcl : (((((s.drop 4).drop 2).drop
                  (beVal ((s.drop 4).take 2))).take
                  ((beVal (s.take 4) : Int) - 2 -
                    (beVal ((s.drop 4).take 2) : Int)).toNat).length : Int) <
                (beVal (s.take 4) : Int) - 2 - (beVal ((s.drop 4).take 2) : Int)
            · rw [if_pos hcl, if_pos hcl]
            · rw [if_neg hcl, if_neg hcl]
              have h := ih ((((s.drop 4).drop 2).drop
                  (beVal ((s.drop 4).take 2))).drop
                  ((beVal (s.take 4) : Int) - 2 -
                    (beVal ((s.drop 4).take 2) : Int)).toNat)
              cases h1 : parseLoop v1 g ((((s.drop 4).drop 2).drop
                  (beVal ((s.drop 4).take 2))).drop
                  ((beVal (s.take 4) : Int) - 2 -
                    (beVal ((s.drop 4).take 2) : Int)).toNat) with
              | ok recs1 =>
                cases h2 : parseLoop v2 g ((((s.drop 4).drop 2).drop
                    (beVal ((s.drop 4).take 2))).drop
                    ((beVal (s.take 4) : Int) - 2 -
                      (beVal ((s.drop 4).take 2) : Int)).toNat) with
                | ok recs2 =>
                  rw [h1, h2] at h
                  simp only [Except.map, Except.ok.injEq] at h
                  simp only [Except.map, Except.ok.injEq, List.map_cons, List.cons.injEq]
                  exact ⟨rfl, h⟩
                | error e2 =>
                  rw [h1, h2] at h
                  simp [Except.map] at h
              | error e1 =>
                cases h2 : parseLoop v2 g ((((s.drop 4).drop 2).drop
                    (beVal ((s.drop 4).take 2))).drop
                    ((beVal (s.take 4) : Int) - 2 -
                      (beVal ((s.drop 4).take 2) : Int)).toNat) with
                | ok recs2 =>
                  rw [h1, h2] at h
                  simp [Except.map] at h
                | error e2 =>
                  rw [h1, h2] at h
                  simp only [Except.map, Except.error.injEq] at h
                  subst h
                  rfl

/-- When the version byte is not 1, the two-byte header interpretation is
never applied: every record the loop returns has the Unknown file type. -/
theorem parseLoop_file_type_unknown (v : Nat) (hv : v ≠ 1) :
    ∀ (fuel : Nat) (s : List Nat) (recs : List FcaRecord),
      parseLoop v fuel s = .ok recs → ∀ r ∈ recs, r.file_type = FILE_TYPE_UNKNOWN := by
  intro fuel
  induction fuel with
  | zero =>
    intro s recs h
    simp [parseLoop] at h
  | succ g ih =>
    intro s recs h
    simp only [parseLoop] at h
    split at h
    · obtain rfl : ([] : List FcaRecord) = recs := by simpa using h
      intro r hr
      simp at hr
    · split at h
      · simp at h
      · split at h
        · simp at h
        · rw [if_neg (show ¬(v = 1 ∧ beVal ((s.drop 4).take 2) = 2) from
            fun hc => hv hc.1)] at h
          split at h
          · rw [if_neg (by omega)] at h
            split at h
            · rename_i recs2 heq
              obtain rfl : _ :: recs2 = recs := by simpa using h
              intro r hr
              rcases List.mem_cons.mp hr with rfl | hr2
              · rfl
              · exact ih _ _ heq r hr2
            · simp at h
          · split at h
            · simp at h
            · split at h
              · rename_i recs2 heq
                obtain rfl : _ :: recs2 = recs := by simpa using h
                intro r hr
                rcases List.mem_cons.mp hr with rfl | hr2
                · rfl
                · exact ih _ _ heq r hr2
              · simp at h

/-- C5: a decode of an archive whose version byte is not 1 does not fail on
the version alone; records are parsed with the version-1 field layout (same
success/failure and same `total_size`, `header_size`, header bytes and
content as a version-1 decode of the same bytes), but the 2-byte
type+reserved interpretation is not applied: every record gets the Unknown
file type, so its output is named by the MD5 hash of its content. -/
theorem unknown_version_layout (v : Nat) (hv : v ≠ 1) (rest : List Nat)
    (db : Option (List AmiiboEntry)) (pro : Bool) :
    ((decode_fca ([0x46, 0x43, 0x41] ++ v :: rest)).map (List.map recFrame) =
      (decode_fca ([0x46, 0x43, 0x41] ++ 1 :: rest)).map (List.map recFrame)) ∧
    ∀ recs, decode_fca ([0x46, 0x43, 0x41] ++ v :: rest) = .ok recs →
      ∀ r ∈ recs, r.file_type = FILE_TYPE_UNKNOWN ∧
        outputName db pro r.file_type r.content = OutName.md5hash := by
  have hdec : ∀ w : Nat, decode_fca ([0x46, 0x43, 0x41] ++ w :: rest) =
      parseLoop w (rest.length + 1) rest := by
    intro w
    unfold decode_fca
    rw [if_neg (by simp)]
    rfl
  constructor
  · rw [hdec v, hdec 1]
    exact parseLoop_version_frame v 1 (rest.length + 1) rest
  · intro recs hrecs r hr
    rw [hdec v] at hrecs
    have hft := parseLoop_file_type_unknown v hv (rest.length + 1) rest recs hrecs r hr
    refine ⟨hft, ?_⟩
    rw [hft]
    simp [outputName, FILE_TYPE_UNKNOWN, FILE_TYPE_AMIIBO_V2, FILE_TYPE_AMIIBO_V3]

/-- Witness for `unknown_version_layout`: a version-7 archive with one
record still decodes, the record keeps the Unknown type and is named by
hash. -/
theorem unknown_version_layout_witness :
    recW.file_type = FILE_TYPE_UNKNOWN ∧
      outputName none false recW.file_type recW.content = OutName.md5hash :=
  (unknown_version_layout 7 (by decide) [0, 0, 0, 4, 0, 2, 5, 0] none false).2
    [recW] (by decide) recW (by simp)

/-- C6: at a record boundary, a stream of fewer than 4 bytes is clean
end-of-archive — the loop succeeds with the records accumulated so far — and
any short read inside a record is a fatal error, never EOF: a short
`header_size` read, a short header read, and (for a nonnegative embedded
size) short content each abort the decode with the corresponding error. -/
theorem eof_vs_truncation (v fuel : Nat) (s : List Nat) (hfuel : s.length < fuel) :
    (s.length < 4 → parseLoop v fuel s = .ok []) ∧
    (4 ≤ s.length → (s.drop 4).length < 2 →
      parseLoop v fuel s = .error .shortHeaderSizeField) ∧
    (4 ≤ s.length → 2 ≤ (s.drop 4).length →
      (((s.drop 4).drop 2).take (beVal ((s.drop 4).take 2))).length <
        beVal ((s.drop 4).take 2) →
      parseLoop v fuel s = .error .truncatedHeader) ∧
    (4 ≤ s.length → 2 ≤ (s.drop 4).length →
      ¬((((s.drop 4).drop 2).take (beVal ((s.drop 4).take 2))).length <
        beVal ((s.drop 4).take 2)) →
      0 ≤ (beVal (s.take 4) : Int) - 2 - (beVal ((s.drop 4).take 2) : Int) →
      ((((s.drop 4).drop 2).drop (beVal ((s.drop 4).take 2))).length : Int) <
        (beVal (s.take 4) : Int) - 2 - (beVal ((s.drop 4).take 2) : Int) →
      parseLoop v fuel s = .error .truncatedContent) := by
  obtain ⟨g, rfl⟩ : ∃ g, fuel = g + 1 := ⟨fuel - 1, by omega⟩
  refine ⟨?_, ?_, ?_, ?_⟩
  · intro h4
    simp only [parseLoop]
    rw [if_pos h4]
  · intro h4 h2
    simp only [parseLoop]
    rw [if_neg (by omega), if_pos h2]
  · intro h4 h2 hh
    simp only [parseLoop]
    rw [if_neg (by omega), if_neg (by omega), if_pos hh]
  · intro h4 h2 hh hnn hlt
    simp only [parseLoop]
    rw [if_neg (by omega), if_neg (by omega), if_neg hh]
    have hnlt : ¬((beVal (s.take 4) : Int) - 2 -
        (beVal ((s.drop 4).take 2) : Int) < 0) := by omega
    rw [if_neg hnlt, if_neg hnlt]
    rw [if_pos (show (((((s.drop 4).drop 2).drop (beVal ((s.drop 4).take 2))).take
        ((beVal (s.take 4) : Int) - 2 -
          (beVal ((s.drop 4).take 2) : Int)).toNat).length : Int) <
        (beVal (s.take 4) : Int) - 2 - (beVal ((s.drop 4).take 2) : Int) from by
      rw [List.length_take]
      omega)]

/-- Witness for `eof_vs_truncation`: a short stream is clean EOF; three
concrete truncated records each raise the matching error. -/
theorem eof_vs_truncation_witness :
    parseLoop 1 3 [1, 2] = .ok [] ∧
      parseLoop 1 6 [0, 0, 0, 9, 0] = .error .shortHeaderSizeField ∧
      parseLoop 1 8 [0, 0, 0, 9, 0, 4, 7] = .error .truncatedHeader ∧
      parseLoop 1 10 [0, 0, 0, 9, 0, 2, 0, 0, 1] = .error .truncatedContent :=
  ⟨(eof_vs_truncation 1 3 [1, 2] (by decide)).1 (by decide),
   (eof_vs_truncation 1 6 [0, 0, 0, 9, 0] (by decide)).2.1 (by decide) (by decide),
   (eof_vs_truncation 1 8 [0, 0, 0, 9, 0, 4, 7] (by decide)).2.2.1
     (by decide) (by decide) (by decide),
   (eof_vs_truncation 1 10 [0, 0, 0, 9, 0, 2, 0, 0, 1] (by decide)).2.2.2
     (by decide) (by decide) (by decide) (by decide) (by decide)⟩

/-- C2 as written is false: a record with `total_size - 2 - header_size < 0`
does not abort the decode.  This archive's single record has
`total_size = 0` and `header_size = 0` (embedded size -2), yet decode
succeeds, returning the rest of the stream as that record's content. -/
theorem negative_embedded_size_counterexample :
    decode_fca negSizeArchive = .ok [⟨0, 0, [], FILE_TYPE_UNKNOWN, [0xAA]⟩] ∧
      (0 : Int) - 2 - (0 : Int) < 0 := by decide

/-- C2 amended: when `total_size - 2 - header_size` is negative, decode does
not fail; the negative size is passed to `read`, which consumes all
remaining bytes as the record's content, the truncation check cannot fire,
and decoding ends cleanly with this as the final record.  When the embedded
size is nonnegative, exactly that many content bytes are read — the record's
content has exactly `embedded_size` bytes and the loop continues on the
remainder — and if fewer are available decode fails with the
truncated-content FormatError. -/
theorem negative_embedded_size_reads_rest (v fuel : Nat) (s : List Nat)
    (hfuel : s.length < fuel) (h4 : 4 ≤ s.length) (h2 : 2 ≤ (s.drop 4).length)
    (hh : ¬((((s.drop 4).drop 2).take (beVal ((s.drop 4).take 2))).length <
      beVal ((s.drop 4).take 2))) :
    ((beVal (s.take 4) : Int) - 2 - (beVal ((s.drop 4).take 2) : Int) < 0 →
      parseLoop v fuel s = .ok [⟨beVal (s.take 4), beVal ((s.drop 4).take 2),
        ((s.drop 4).drop 2).take (beVal ((s.drop 4).take 2)),
        (if v = 1 ∧ beVal ((s.drop 4).take 2) = 2 then
          (((s.drop 4).drop 2).take (beVal ((s.drop 4).take 2))).getD 0 0
        else FILE_TYPE_UNKNOWN),
        ((s.drop 4).drop 2).drop (beVal ((s.drop 4).take 2))⟩]) ∧
    (0 ≤ (beVal (s.take 4) : Int) - 2 - (beVal ((s.drop 4).take 2) : Int) →
      (((((s.drop 4).drop 2).drop (beVal ((s.drop 4).take 2))).length : Int) <
          (beVal (s.take 4) : Int) - 2 - (beVal ((s.drop 4).take 2) : Int) →
        parseLoop v fuel s = .error .truncatedContent) ∧
      ((beVal (s.take 4) : Int) - 2 - (beVal ((s.drop 4).take 2) : Int) ≤
          ((((s.drop 4).drop 2).drop (beVal ((s.drop 4).take 2))).length : Int) →
        ∃ t, parseLoop v fuel s = Except.map
            (List.cons ⟨beVal (s.take 4), beVal ((s.drop 4).take 2),
              ((s.drop 4).drop 2).take (beVal ((s.drop 4).take 2)),
              (if v = 1 ∧ beVal ((s.drop 4).take 2) = 2 then
                (((s.drop 4).drop 2).take (beVal ((s.drop 4).take 2))).getD 0 0
              else FILE_TYPE_UNKNOWN),
              (((s.drop 4).drop 2).drop (beVal ((s.drop 4).take 2))).take
                ((beVal (s.take 4) : Int) - 2 -
                  (beVal ((s.drop 4).take 2) : Int)).toNat⟩) t ∧
          ((((s.drop 4).drop 2).drop (beVal ((s.drop 4).take 2))).take
              ((beVal (s.take 4) : Int) - 2 -
                (beVal ((s.drop 4).take 2) : Int)).toNat).length =
            ((beVal (s.take 4) : Int) - 2 -
              (beVal ((s.drop 4).take 2) : Int)).toNat)) := by
  obtain ⟨g, rfl⟩ : ∃ g, fuel = g + 1 := ⟨fuel - 1, by omega⟩
  constructor
  · intro hneg
    simp only [parseLoop]
    rw [if_neg (by omega), if_neg (by omega), if_neg hh]
    rw [if_pos hneg, if_pos hneg]
    have hclF : ¬(((((s.drop 4).drop 2).drop
        (beVal ((s.drop 4).take 2))).length : Int) <
        (beVal (s.take 4) : Int) - 2 - (beVal ((s.drop 4).take 2) : Int)) := by
      omega
    rw [if_neg hclF]
    have hnil : parseLoop v g [] = .ok [] := by
      obtain ⟨g2, rfl⟩ : ∃ g2, g = g2 + 1 := ⟨g - 1, by omega⟩
      simp [parseLoop]
    rw [hnil]
  · intro hnn
    have hnlt : ¬((beVal (s.take 4) : Int) - 2 -
        (beVal ((s.drop 4).take 2) : Int) < 0) := by omega
    constructor
    · intro hlt
      simp only [parseLoop]
      rw [if_neg (by omega), if_neg (by omega), if_neg hh]
      rw [if_neg hnlt, if_neg hnlt]
      rw [if_pos (show (((((s.drop 4).drop 2).drop
          (beVal ((s.drop 4).take 2))).take
          ((beVal (s.take 4) : Int) - 2 -
            (beVal ((s.drop 4).take 2) : Int)).toNat).length : Int) <
          (beVal (s.take 4) : Int) - 2 - (beVal ((s.drop 4).take 2) : Int) from by
        rw [List.length_take]
        omega)]
    · intro hge
      simp only [parseLoop]
      rw [if_neg (by omega), if_neg (by omega), if_neg hh]
      rw [if_neg hnlt, if_neg hnlt]
      have hclF : ¬(((((s.drop 4).drop 2).drop
          (beVal ((s.drop 4).take 2))).take
          ((beVal (s.take 4) : Int) - 2 -
            (beVal ((s.drop 4).take 2) : Int)).toNat).length : Int) <
          (beVal (s.take 4) : Int) - 2 - (beVal ((s.drop 4).take 2) : Int) := by
        rw [List.length_take]
        omega
      rw [if_neg hclF]
      refine ⟨parseLoop v g ((((s.drop 4).drop 2).drop
        (beVal ((s.drop 4).take 2))).drop
        ((beVal (s.take 4) : Int) - 2 -
          (beVal ((s.drop 4).take 2) : Int)).toNat), ?_, ?_⟩
      · cases hm : parseLoop v g ((((s.drop 4).drop 2).drop
            (beVal ((s.drop 4).take 2))).drop
            ((beVal (s.take 4) : Int) - 2 -
              (beVal ((s.drop 4).take 2) : Int)).toNat) with
        | ok recs => simp [Except.map]
        | error e => simp [Except.map]
      · rw [List.length_take]
        omega

/-- Witness for `negative_embedded_size_reads_rest`: the record with
`total_size = 0`, `header_size = 0` has embedded size -2; the loop succeeds
and the record's content is the whole remaining byte `0xAA`. -/
theorem negative_embedded_size_reads_rest_witness :
    parseLoop 1 8 [0, 0, 0, 0, 0, 0, 0xAA] =
      .ok [⟨0, 0, [], FILE_TYPE_UNKNOWN, [0xAA]⟩] :=
  (negative_embedded_size_reads_rest 1 8 [0, 0, 0, 0, 0, 0, 0xAA]
    (by decide) (by decide) (by decide) (by decide)).1 (by decide)

end Fca
